import Mathlib

/-!
Verification development for the json-subscriber tracing layer.

This file gives a shallow embedding of the core of the repository:
the per-span field store (src/fields.rs, src/visitor.rs, the JsonFields and
JsonFieldsInner structures used by src/layer/mod.rs), the span lifecycle
callbacks on_new_span and on_record (src/layer/mod.rs), and the event
renderer format_event (src/layer/event.rs) together with the built-in
producers installed by the configuration methods of JsonLayer
(src/layer/mod.rs).

Modelling conventions:
- Rust String buffers are Lean String values; bytes are Lean Char values.
- serde_json values are modelled by the inductive JValue; floating point
  numbers are not modelled (no claim depends on them), integers are Int.
- BTreeMap is modelled as a key-sorted association list.
- The serde_json compact serializer (including the repository's
  JsonSubscriberFormatter, whose definition is referenced by
  src/layer/event.rs but absent from the provided sources) is modelled as
  the compact JSON text serializer given below, per the specification of
  the output wire format in section 4.3 of the spec.
-/

set_option maxHeartbeats 1000000

/-- Decimal digit character. -/
def digitChar (d : Nat) : Char :=
  if d = 0 then '0' else if d = 1 then '1' else if d = 2 then '2'
  else if d = 3 then '3' else if d = 4 then '4' else if d = 5 then '5'
  else if d = 6 then '6' else if d = 7 then '7' else if d = 8 then '8' else '9'

/-- Lowercase hexadecimal digit character, as used by serde_json unicode escapes. -/
def hexChar (d : Nat) : Char :=
  if d < 10 then digitChar d
  else if d = 10 then 'a' else if d = 11 then 'b' else if d = 12 then 'c'
  else if d = 13 then 'd' else if d = 14 then 'e' else 'f'

/-- Decimal digits of a natural number, most significant first. -/
def natToChars (n : Nat) : List Char :=
  if _h : n < 10 then [digitChar n]
  else natToChars (n / 10) ++ [digitChar (n % 10)]
decreasing_by exact Nat.div_lt_self (by omega) (by omega)

/-- Decimal rendering of an integer, as serde_json renders JSON integers. -/
def numToString (n : Int) : String :=
  if n < 0 then "-" ++ String.mk (natToChars n.natAbs) else String.mk (natToChars n.natAbs)

/-- Escaping of one character inside a JSON string literal, following
serde_json: quote and backslash get a backslash, the common control
characters get their short escapes, all remaining control characters get a
unicode escape, and every other character is passed through. -/
def escapeChar (c : Char) : String :=
  if c = '"' then "\\\""
  else if c = '\\' then "\\\\"
  else if c = '\n' then "\\n"
  else if c = '\r' then "\\r"
  else if c = '\t' then "\\t"
  else if c.toNat = 8 then "\\b"
  else if c.toNat = 12 then "\\f"
  else if c.toNat < 32 then "\\u00" ++ String.mk [hexChar (c.toNat / 16), hexChar (c.toNat % 16)]
  else String.mk [c]

/-- Escaping of a list of characters, character by character. -/
def escapeList : List Char → String
  | [] => ""
  | c :: cs => escapeChar c ++ escapeList cs

/-- Escaped contents of a JSON string literal for a given Rust string. -/
def serdeEscape (s : String) : String := escapeList s.data

/-- Full JSON string literal (quotes included) for a given Rust string,
as produced by the serde_json serializer. -/
def serializeString (s : String) : String := "\"" ++ serdeEscape s ++ "\""

/-- Model of serde_json::Value. Floats are not modelled. -/
inductive JValue where
  | null : JValue
  | bool (b : Bool) : JValue
  | num (n : Int) : JValue
  | str (s : String) : JValue
  | arr (xs : List JValue) : JValue
  | obj (ms : List (String × JValue)) : JValue

mutual
/-- Boolean equality on JValue (used for the value comparison in the
visitor, where the Rust code compares the old serde_json::Value with the
newly recorded value). -/
def jvalBeq : JValue → JValue → Bool
  | .null, .null => true
  | .bool a, .bool b => a == b
  | .num a, .num b => a == b
  | .str a, .str b => a == b
  | .arr a, .arr b => jvalBeqList a b
  | .obj a, .obj b => jvalBeqMembers a b
  | _, _ => false

/-- Boolean equality on lists of JValue. -/
def jvalBeqList : List JValue → List JValue → Bool
  | [], [] => true
  | a :: as_, b :: bs => jvalBeq a b && jvalBeqList as_ bs
  | _, _ => false

/-- Boolean equality on members lists. -/
def jvalBeqMembers : List (String × JValue) → List (String × JValue) → Bool
  | [], [] => true
  | (ka, va) :: as_, (kb, vb) :: bs => ka == kb && jvalBeq va vb && jvalBeqMembers as_ bs
  | _, _ => false
end

mutual
/-- Compact JSON serialization of a JValue, following the serde_json
compact formatter used by the repository (serde_json::to_string and the
serializer built in format_event). -/
def serialize : JValue → String
  | .null => "null"
  | .bool b => if b then "true" else "false"
  | .num n => numToString n
  | .str s => serializeString s
  | .arr xs => "[" ++ serializeList xs ++ "]"
  | .obj ms => "\x7b" ++ serializeMembers ms ++ "\x7d"

/-- Comma-separated serialization of the elements of a JSON array. -/
def serializeList : List JValue → String
  | [] => ""
  | [v] => serialize v
  | v :: vs => serialize v ++ "," ++ serializeList vs

/-- Comma-separated serialization of the members of a JSON object. -/
def serializeMembers : List (String × JValue) → String
  | [] => ""
  | [(k, v)] => serializeString k ++ ":" ++ serialize v
  | (k, v) :: ms => serializeString k ++ ":" ++ serialize v ++ "," ++ serializeMembers ms
end

/-- Lookup in an association list, modelling BTreeMap::get. -/
def lookupKey {κ α : Type} [DecidableEq κ] (k : κ) : List (κ × α) → Option α
  | [] => none
  | (k', v) :: rest => if k = k' then some v else lookupKey k rest

/-- Lexicographic order on character lists by code point. On UTF-8
strings this coincides with the byte order Rust uses to compare str keys
in a BTreeMap. -/
def keyLtChars : List Char → List Char → Bool
  | [], [] => false
  | [], _ :: _ => true
  | _ :: _, [] => false
  | a :: as_, b :: bs =>
    if a.toNat < b.toNat then true
    else if b.toNat < a.toNat then false
    else keyLtChars as_ bs

/-- String key order of the BTreeMap. -/
def keyLt (a b : String) : Bool := keyLtChars a.data b.data

/-- Insertion into a key-sorted association list, modelling
BTreeMap::insert (and the entry-and-insert pattern of the visitor): an
existing binding for the key is replaced, otherwise the pair is placed at
its ordered position. -/
def insertSorted (k : String) (v : JValue) : List (String × JValue) → List (String × JValue)
  | [] => [(k, v)]
  | (k', v') :: rest =>
    if keyLt k k' then (k, v) :: (k', v') :: rest
    else if k = k' then (k, v) :: rest
    else (k', v') :: insertSorted k v rest

/-- Removal from an association list with unique keys, modelling
BTreeMap::remove: the first binding with the key is dropped. -/
def mapRemove {κ α : Type} [DecidableEq κ] (k : κ) : List (κ × α) → List (κ × α)
  | [] => []
  | (k', v') :: rest => if k = k' then rest else (k', v') :: mapRemove k rest

/-- Key-sortedness of a fields map: the strict order that BTreeMap keeps
its keys in. -/
def SortedKeys {α : Type} (m : List (String × α)) : Prop :=
  List.Pairwise (fun a b => keyLt a.1 b.1 = true) m

/-- Inner per-span field store: the sorted field map and the flag tracking
whether some recorded value actually changed. This models the structure
the visitor in src/visitor.rs writes into (the JsonFields struct of
src/layer.rs, reachable as the inner component of the JsonFields attached
to a span by src/layer/mod.rs). -/
structure JsonFieldsInner where
  fields : List (String × JValue)
  unformatted_fields : Bool

/-- Per-span field store with its cached serialization, as used by
src/layer/mod.rs (fields.inner and fields.serialized). The struct
definition itself comes from an iteration of src/fields.rs that is not in
the provided sources; the serialized component is, per the spec (section
3, Field Store), the fully rendered JSON object text of the field map. -/
structure JsonFields where
  inner : JsonFieldsInner
  serialized : String

/-- Empty inner field store. -/
def JsonFieldsInner.emptyInner : JsonFieldsInner := { fields := [], unformatted_fields := false }

/-- Core of the visitor methods record_i64, record_u64, record_bool,
record_f64 and record_str of src/visitor.rs: on a vacant entry the value
is inserted and the unformatted flag set; on an occupied entry the value
is replaced and the flag is additionally set when the value changed. -/
def visitorRecord (inner : JsonFieldsInner) (name : String) (value : JValue) : JsonFieldsInner :=
  match lookupKey name inner.fields with
  | none =>
    { fields := insertSorted name value inner.fields, unformatted_fields := true }
  | some old =>
    { fields := insertSorted name value inner.fields,
      unformatted_fields := inner.unformatted_fields || !jvalBeq old value }

/-- Visitor method record_str of src/visitor.rs, lines 119 to 134. -/
def record_str (inner : JsonFieldsInner) (name : String) (value : String) : JsonFieldsInner :=
  visitorRecord inner name (.str value)

/-- Raw-identifier normalization used by record_debug in src/visitor.rs:
a field name starting with the two characters r and hash has them
stripped. -/
def stripRawName (n : String) : String :=
  match n.data with
  | 'r' :: '#' :: rest => String.mk rest
  | _ => n

/-- Visitor method record_debug of src/visitor.rs, lines 136 to 153: the
debug rendering of the value (passed here as the string dbg) is stored as
a JSON string under the normalized name; the unformatted flag is not
touched by this method. -/
def record_debug (inner : JsonFieldsInner) (name : String) (dbg : String) : JsonFieldsInner :=
  { inner with fields := insertSorted (stripRawName name) (.str dbg) inner.fields }

/-- Serialization of a field store, modelling the Serialize impl for
JsonFields (src/layer.rs lines 28 to 42): a JSON object with the map
entries in key order. -/
def serializeFields (inner : JsonFieldsInner) : String := serialize (.obj inner.fields)

/-- Lifecycle callback on_new_span of src/layer/mod.rs, lines 103 to 127:
a fresh store is built by recording the initial attribute values through
the visitor, then the name field is inserted directly (overwriting any
recorded field of that name) from the span metadata, and the cached
serialization is computed. -/
def onNewSpan (attrs : List (String × JValue)) (name : String) : JsonFields :=
  let inner := attrs.foldl (fun i kv => visitorRecord i kv.1 kv.2) JsonFieldsInner.emptyInner
  let inner : JsonFieldsInner :=
    { inner with fields := insertSorted "name" (.str name) inner.fields }
  { inner := inner, serialized := serializeFields inner }

/-- Lifecycle callback on_record of src/layer/mod.rs, lines 129 to 151:
every value of the record is written through the visitor, then the cached
serialization is recomputed unconditionally and replaces the old one. -/
def onRecord (store : JsonFields) (values : List (String × JValue)) : JsonFields :=
  let inner := values.foldl (fun i kv => visitorRecord i kv.1 kv.2) store.inner
  { inner := inner, serialized := serializeFields inner }

/-- Field store of the iteration in src/fields.rs (the ArcSwapOption
based JsonFields): the span name is kept outside the per-field slots, and
set guards the reserved name key. Values are stored pre-serialized. -/
structure ArcSwapFields where
  name : String
  fields : List (String × Option String)

/-- Method set of src/fields.rs, lines 36 to 44: a key equal to the
literal name is ignored; otherwise the value is stored only into an
already existing slot for the normalized key. -/
def ArcSwapFields.set (st : ArcSwapFields) (key : String) (value : String) : ArcSwapFields :=
  if key = "name" then st
  else
    { st with
      fields := st.fields.map (fun kv =>
        if kv.1 = stripRawName key then (kv.1, some value) else kv) }

/-- Function write_escaped of src/layer/mod.rs, lines 1011 to 1027. The
Rust loop scans for the next quote or backslash and inserts a single
backslash before it; character by character this amounts to prefixing
every quote and backslash with a backslash and passing every other
character (control characters included) through unchanged. The result is
wrapped in quotes. -/
def writeEscapedChars : List Char → List Char
  | [] => []
  | c :: rest =>
    if c = '"' || c = '\\' then '\\' :: c :: writeEscapedChars rest
    else c :: writeEscapedChars rest

/-- Full output of write_escaped for a value: opening quote, escaped
body, closing quote. -/
def write_escaped (value : String) : String :=
  "\"" ++ String.mk (writeEscapedChars value.data) ++ "\""

/-- Span data visible to producers: the JsonFields extension attached to
the span by on_new_span, if any (span.extensions().get::<JsonFields>()). -/
structure SpanData where
  ext : Option JsonFields

/-- Event view for one render call: the event's own field map (in the
order the field map serializes them), the relevant metadata strings, and
the ancestor span chain from root to leaf. The nearest enclosing span is
the last element of the chain; an empty chain means the event has no
enclosing span. -/
structure EventData where
  fieldMap : List (String × JValue)
  target : String
  level : String
  scope : List SpanData

/-- Outcome of one DynamicRawFromEvent producer on a given event: the
text it wrote into the buffer before returning, and whether it returned
Ok. On an error the written text models whatever partial output the
producer had produced before failing. -/
structure RawOut where
  written : String
  ok : Bool

/-- Model of the Cached enum of src/cached.rs as consumed by
format_event in src/layer/event.rs: a single pre-serialized fragment or a
list of pre-serialized fragments for an array. (The RawString variant of
src/cached.rs is not constructed or matched by the canonical layer and
is omitted.) -/
inductive Cached where
  | raw (s : String)
  | arr (xs : List String)

/-- Model of the JsonValue producer enum of src/layer/mod.rs, lines 85
to 96. Span-scoped producers receive the root-to-leaf chain of the
nearest enclosing span (a SpanRef allows iterating its scope), and the
span itself is the last element. -/
inductive Producer where
  | serde (v : JValue)
  | dynFromEvent (f : EventData → Option JValue)
  | dynFromSpan (f : List SpanData → Option JValue)
  | dynCachedFromSpan (f : List SpanData → Option Cached)
  | dynRawFromEvent (f : EventData → RawOut)

/-- Model of the MaybeCached enum of src/layer/event.rs. -/
inductive MaybeCached where
  | serde (v : JValue)
  | cachedRaw (s : String)
  | cachedArr (xs : List String)
  | raw (out : RawOut)

/-- Function resolve_json_value of src/layer/event.rs, lines 283 to 302:
a Serde value resolves to itself, event producers are applied to the
event, span producers are applied to the nearest enclosing span (none if
the event has no span), and raw producers resolve to their writer
action. -/
def resolveJsonValue (p : Producer) (e : EventData) : Option MaybeCached :=
  match p with
  | .serde v => some (.serde v)
  | .dynFromEvent f => (f e).map MaybeCached.serde
  | .dynFromSpan f =>
    match e.scope with
    | [] => none
    | _ :: _ => (f e.scope).map MaybeCached.serde
  | .dynCachedFromSpan f =>
    match e.scope with
    | [] => none
    | _ :: _ =>
      (f e.scope).map (fun c =>
        match c with
        | .raw s => MaybeCached.cachedRaw s
        | .arr xs => MaybeCached.cachedArr xs)
  | .dynRawFromEvent f => some (.raw (f e))

/-- Comma-separated join of pre-serialized fragments, modelling the
first-flag loop that format_event uses to write a cached array. -/
def commaJoin : List String → String
  | [] => ""
  | [s] => s
  | s :: rest => s ++ "," ++ commaJoin rest

/-- Transient state of one render pass: the output buffer and the
serialized_anything and serialized_anything_serde flags of
format_event. -/
structure FmtState where
  buffer : String
  sa : Bool
  saSerde : Bool

/-- Character count of a string, used as the truncation position. -/
def strLen (s : String) : Nat := s.data.length

/-- Truncation of a string to a saved position, modelling
String::truncate at a previously saved length. -/
def strTake (s : String) (n : Nat) : String := String.mk (s.data.take n)

/-- One iteration of the keyed-values loop of format_event
(src/layer/event.rs, lines 94 to 176) for the schema entry kp. The serde
branch lets the serde serializer write the comma (it writes one exactly
when it has already written an entry, that is when saSerde holds) after
the manual comma inserted when only non-serde content was written so far.
The cached and raw branches insert the comma manually whenever anything
was written, then splice the key unescaped followed by the fragment. A
raw producer that errors has the buffer truncated back to the saved
position. -/
def keyedStep (e : EventData) (st : FmtState) (kp : String × Producer) : FmtState :=
  match resolveJsonValue kp.2 e with
  | none => st
  | some (.serde v) =>
    { buffer := st.buffer
        ++ (if st.sa && !st.saSerde then "," else "")
        ++ (if st.saSerde then "," else "")
        ++ serializeString kp.1 ++ ":" ++ serialize v,
      sa := true, saSerde := true }
  | some (.cachedRaw raw) =>
    { buffer := st.buffer ++ (if st.sa then "," else "")
        ++ "\"" ++ kp.1 ++ "\"" ++ ":" ++ raw,
      sa := true, saSerde := st.saSerde }
  | some (.cachedArr arr) =>
    { buffer := st.buffer ++ (if st.sa then "," else "")
        ++ "\"" ++ kp.1 ++ "\"" ++ ":" ++ "[" ++ commaJoin arr ++ "]",
      sa := true, saSerde := st.saSerde }
  | some (.raw out) =>
    let rollback := strLen st.buffer
    let buf := st.buffer ++ (if st.sa then "," else "")
      ++ "\"" ++ kp.1 ++ "\"" ++ ":" ++ out.written
    if out.ok then { buffer := buf, sa := true, saSerde := st.saSerde }
    else { buffer := strTake buf rollback, sa := st.sa, saSerde := st.saSerde }

/-- Containment of a character in a string, modelling str::contains. -/
def containsChar (s : String) (c : Char) : Bool := s.data.contains c

/-- ASCII whitespace test used to model str::trim (the inputs the
renderer trims are ASCII JSON texts). -/
def isRustWs (c : Char) : Bool := c = ' ' || c = '\t' || c = '\n' || c = '\r'

/-- Model of str::trim: leading and trailing whitespace removed. -/
def rustTrim (s : String) : String :=
  String.mk (((s.data.dropWhile isRustWs).reverse.dropWhile isRustWs).reverse)

/-- Model of str::strip_prefix for a single character. -/
def stripLeadChar (c : Char) (s : String) : Option String :=
  match s.data with
  | [] => none
  | c' :: rest => if c' = c then some (String.mk rest) else none

/-- Model of str::strip_suffix for a single character. -/
def stripTailChar (c : Char) (s : String) : Option String :=
  match s.data.reverse with
  | [] => none
  | c' :: rest => if c' = c then some (String.mk rest.reverse) else none

/-- The brace-stripping pipeline of the flatten branches of
format_event: trim, strip the opening brace, strip the closing brace. -/
def objectContents (s : String) : Option String :=
  (stripLeadChar '\x7b' (rustTrim s)).bind (stripTailChar '\x7d')

/-- One iteration of the flattened-values loop of format_event
(src/layer/event.rs, lines 178 to 266). The result none models a panic:
the todo macro in the Cached Array branch and the as_object unwrap in the
Serde branch. An empty resolved object contributes nothing; a quoteless
cached fragment is treated as an empty object and skipped; fragments that
do not strip to object contents are skipped with a diagnostic; a raw
producer writes to a scratch string first, so an error leaves the buffer
untouched. -/
def flatStep (e : EventData) (st : FmtState) (p : Producer) : Option FmtState :=
  match resolveJsonValue p e with
  | none => some st
  | some (.serde v) =>
    match v with
    | .obj ms =>
      if ms.isEmpty then some st
      else
        some { buffer := st.buffer
                 ++ (if st.sa && !st.saSerde then "," else "")
                 ++ (if st.saSerde then "," else "")
                 ++ serializeMembers ms,
               sa := true, saSerde := true }
    | _ => none
  | some (.cachedRaw raw) =>
    if !containsChar raw '"' then some st
    else
      match objectContents raw with
      | none => some st
      | some contents =>
        some { buffer := st.buffer ++ (if st.sa then "," else "") ++ contents,
               sa := true, saSerde := st.saSerde }
  | some (.cachedArr _) => none
  | some (.raw out) =>
    if out.ok then
      match objectContents out.written with
      | none => some st
      | some contents =>
        some { buffer := st.buffer ++ (if st.sa then "," else "") ++ contents,
               sa := true, saSerde := st.saSerde }
    else some st

/-- Fold of flatStep over the flattened producers, propagating a panic. -/
def flatFold (e : EventData) : FmtState → List Producer → Option FmtState
  | st, [] => some st
  | st, p :: ps =>
    match flatStep e st p with
    | none => none
    | some st' => flatFold e st' ps

/-- Function format_event of src/layer/event.rs, lines 70 to 280: the
serializer opens the object, the keyed entries are processed in schema
key order, then the flattened entries, the serializer closes the object
and a newline is appended. The result none models a panic inside the
flatten loop; the keyed list is the keyed_values map in ascending key
order and the flat list is the flattened_values map in ascending
FlatSchemaKey order. -/
def formatEvent (keyed : List (String × Producer)) (flat : List Producer)
    (e : EventData) : Option String :=
  let st1 := keyed.foldl (keyedStep e) { buffer := "\x7b", sa := false, saSerde := false }
  match flatFold e st1 flat with
  | none => none
  | some st2 => some (st2.buffer ++ "\x7d" ++ "\n")

/-- Collection of key-value pairs into a serde_json object map (a
BTreeMap keyed by the field name, later pairs overwriting earlier ones),
as happens in serde_json::to_value of a map. -/
def toSortedObj (l : List (String × JValue)) : List (String × JValue) :=
  l.foldl (fun m kv => insertSorted kv.1 kv.2 m) []

/-- Producer installed by with_target (src/layer/mod.rs, lines 881 to
890): a raw writer that writes the escaped event target. Writing into an
in-memory string cannot fail, so the result is Ok. -/
def withTargetProducer : Producer :=
  .dynRawFromEvent (fun ev => { written := write_escaped ev.target, ok := true })

/-- Producer installed by with_level (src/layer/mod.rs, lines 927 to
935): a raw writer that writes the escaped level string. -/
def withLevelProducer : Producer :=
  .dynRawFromEvent (fun ev => { written := write_escaped ev.level, ok := true })

/-- Producer installed by with_current_span and by
with_top_level_flattened_current_span (src/layer/mod.rs, lines 727 to
737 and 794 to 804): the cached serialization of the nearest enclosing
span's JsonFields extension, as a raw cached fragment. -/
def currentSpanProducer : Producer :=
  .dynCachedFromSpan (fun chain =>
    (chain.getLast?).bind (fun s => s.ext.map (fun jf => Cached.raw jf.serialized)))

/-- Producer installed by with_span_list (src/layer/mod.rs, lines 806 to
825): the cached serializations of the scope of the nearest enclosing
span, from root to leaf, spans without a JsonFields extension skipped,
collected as a cached array. -/
def spanListProducer : Producer :=
  .dynCachedFromSpan (fun chain =>
    some (.arr (chain.filterMap (fun s => s.ext.map (fun jf => jf.serialized)))))

/-- Producer installed by with_event and by with_flattened_event
(src/layer/mod.rs, lines 710 to 718 and 776 to 791): the serde value of
the event's field map (an object). -/
def eventFieldMapProducer : Producer :=
  .dynFromEvent (fun ev => some (.obj (toSortedObj ev.fieldMap)))

/-- Merged ancestor fields used by with_top_level_flattened_span_list and
with_flattened_span_fields (src/layer/mod.rs, lines 748 to 774 and 827
to 856): a BTreeMap accumulated from the root span to the leaf, so fields
of spans closer to the leaf overwrite fields of spans closer to the
root; spans without a JsonFields extension contribute nothing. -/
def mergedSpanFields (chain : List SpanData) : List (String × JValue) :=
  chain.foldl
    (fun acc s =>
      match s.ext with
      | none => acc
      | some jf => jf.inner.fields.foldl (fun m kv => insertSorted kv.1 kv.2 m) acc)
    []

/-- Producer installed by with_top_level_flattened_span_list
(src/layer/mod.rs, lines 748 to 774): a serde object of the merged
ancestor fields. -/
def flattenedSpanListProducer : Producer :=
  .dynFromSpan (fun chain => some (.obj (mergedSpanFields chain)))

/-- Producer installed by add_multiple_dynamic_fields (src/layer/mod.rs,
lines 485 to 501): the user mapper's pairs are collected into a map and
serialized to a serde object. -/
def multipleDynamicProducer (g : EventData → List (String × JValue)) : Producer :=
  .dynFromEvent (fun ev => some (.obj (toSortedObj (g ev))))

/-- Model of the FlatSchemaKey enum of src/layer/mod.rs, lines 53 to 59,
with the Uuid payload modelled as a natural number. -/
inductive FlatSchemaKey where
  | uuid (id : Nat)
  | flattenedEvent
  | flattenedCurrentSpan
  | flattenedSpanList
deriving DecidableEq

/-- Producers that the public flatten configuration API of JsonLayer can
install into flattened_values: with_flattened_event,
with_top_level_flattened_current_span, with_top_level_flattened_span_list
and add_multiple_dynamic_fields. -/
inductive FlatAPI : Producer → Prop where
  | flatEvent : FlatAPI eventFieldMapProducer
  | flatCurrentSpan : FlatAPI currentSpanProducer
  | flatSpanList : FlatAPI flattenedSpanListProducer
  | multiDynamic (g : EventData → List (String × JValue)) : FlatAPI (multipleDynamicProducer g)

/-- Well-formedness of one keyed schema entry at a given event, the
precondition under which the renderer's raw splices keep the output a
serialized JSON object: fragments spliced verbatim must themselves be
serializer outputs, and keys written without escaping must not need any.
These conditions mirror the debug assertions of format_event on cached
and raw fragments. -/
def GoodKeyedAt (e : EventData) (kp : String × Producer) : Prop :=
  match resolveJsonValue kp.2 e with
  | some (.cachedRaw s) => serdeEscape kp.1 = kp.1 ∧ ∃ w, s = serialize w
  | some (.cachedArr xs) => serdeEscape kp.1 = kp.1 ∧ ∀ x ∈ xs, ∃ w, x = serialize w
  | some (.raw out) =>
    out.ok = true → (serdeEscape kp.1 = kp.1 ∧ ∃ w, out.written = serialize w)
  | _ => True

/-- Well-formedness of one flattened schema entry at a given event:
resolved serde values must be objects (the code unwraps as_object) and
spliced fragments must be serialized objects. A raw flatten producer must
produce a nonempty object: unlike the serde and cached branches, the raw
branch of the flatten loop has no empty-object guard, so an empty object
there would leave a dangling comma. (No public configuration method
installs a raw producer as a flattened value.) -/
def GoodFlatAt (e : EventData) (p : Producer) : Prop :=
  match resolveJsonValue p e with
  | some (.serde v) => ∃ ms, v = JValue.obj ms
  | some (.cachedRaw s) => ∃ ms, s = serialize (JValue.obj ms)
  | some (.raw out) =>
    out.ok = true → ∃ ms, ms ≠ [] ∧ out.written = serialize (JValue.obj ms)
  | _ => True

/-- Invariant of the render state: the buffer is an open JSON object
consisting of serialized members, the serialized_anything flag says
whether there is at least one member, and serialized_anything_serde
implies serialized_anything. -/
def RendererInv (st : FmtState) : Prop :=
  ∃ ms : List (String × JValue),
    st.buffer = "\x7b" ++ serializeMembers ms
    ∧ st.sa = !ms.isEmpty
    ∧ (st.saSerde = true → st.sa = true)

/-- Absence of raw (unescaped) control characters in a string. -/
def noRawControl (s : String) : Prop := ∀ c ∈ s.data, 32 ≤ c.toNat

/-- Method remove_field of src/layer/mod.rs, lines 408 to 410: removes
the keyed producer at the given static key. -/
def removeField (keyed : List (String × Producer)) (key : String) : List (String × Producer) :=
  mapRemove key keyed

/-- Method remove_flattened_field of src/layer/mod.rs, lines 412 to 414:
removes the flattened producer at the given flat key. -/
def removeFlattenedField (flat : List (FlatSchemaKey × Producer)) (key : FlatSchemaKey) :
    List (FlatSchemaKey × Producer) :=
  mapRemove key flat

/-! Supporting lemmas. -/

theorem strMk_data (s : String) : String.mk s.data = s := rfl

theorem strData_append (s t : String) : (s ++ t).data = s.data ++ t.data :=
  String.data_append s t

theorem strAppend_empty (s : String) : s ++ "" = s := by
  apply String.ext
  simp [String.data_append]

theorem strEmpty_append (s : String) : "" ++ s = s := by
  apply String.ext
  simp [String.data_append]

theorem strTake_append (s t : String) : strTake (s ++ t) (strLen s) = s := by
  unfold strTake strLen
  rw [String.data_append, List.take_left]

theorem serializeMembers_single (k : String) (v : JValue) :
    serializeMembers [(k, v)] = serializeString k ++ ":" ++ serialize v := by
  simp [serializeMembers]

theorem serializeMembers_cons2 (k : String) (v : JValue) (m : String × JValue)
    (ms : List (String × JValue)) :
    serializeMembers ((k, v) :: m :: ms)
      = serializeString k ++ ":" ++ serialize v ++ "," ++ serializeMembers (m :: ms) := by
  simp [serializeMembers]

theorem serializeMembers_append (ms ms' : List (String × JValue)) (h : ms' ≠ []) :
    serializeMembers (ms ++ ms')
      = serializeMembers ms ++ (if ms.isEmpty then "" else ",") ++ serializeMembers ms' := by
  induction ms with
  | nil =>
    simp [serializeMembers, strEmpty_append]
  | cons m rest ih =>
    obtain ⟨k, v⟩ := m
    cases rest with
    | nil =>
      cases ms' with
      | nil => exact absurd rfl h
      | cons m₂ tail =>
        simp [serializeMembers_cons2, serializeMembers_single, String.append_assoc]
    | cons m₂ tail =>
      have hne : (m₂ :: tail) ++ ms' ≠ [] := by simp
      simp only [List.cons_append] at ih ⊢
      rw [serializeMembers_cons2, ih, serializeMembers_cons2]
      simp [String.append_assoc]

theorem commaJoin_map_serialize (vs : List JValue) :
    commaJoin (vs.map serialize) = serializeList vs := by
  induction vs with
  | nil => simp [commaJoin, serializeList]
  | cons v rest ih =>
    cases rest with
    | nil => simp [commaJoin, serializeList]
    | cons v₂ tail =>
      simp only [List.map_cons] at ih ⊢
      rw [commaJoin, serializeList, ih] <;> simp

theorem exists_map_of_forall (xs : List String)
    (h : ∀ x ∈ xs, ∃ w : JValue, x = serialize w) :
    ∃ ws : List JValue, xs = ws.map serialize := by
  induction xs with
  | nil => exact ⟨[], rfl⟩
  | cons x rest ih =>
    obtain ⟨w, hw⟩ := h x (by simp)
    obtain ⟨ws, hws⟩ := ih (fun y hy => h y (by simp [hy]))
    exact ⟨w :: ws, by simp [hw, hws]⟩

theorem twoIf_merge (sa sd : Bool) (hss : sd = true → sa = true) :
    ((if sa && !sd then "," else "") ++ (if sd then "," else "") : String)
      = (if sa then "," else "") := by
  cases sa <;> cases sd <;> simp_all [strAppend_empty, strEmpty_append]

theorem ifComma_of_isEmpty (ms : List (String × JValue)) :
    ((if !ms.isEmpty then "," else "") : String) = (if ms.isEmpty then "" else ",") := by
  cases h : ms.isEmpty <;> simp

theorem keyedStep_none (e : EventData) (st : FmtState) (kp : String × Producer)
    (hr : resolveJsonValue kp.2 e = none) : keyedStep e st kp = st := by
  simp [keyedStep, hr]

theorem keyedStep_rawErr (e : EventData) (st : FmtState) (kp : String × Producer)
    (out : RawOut) (hr : resolveJsonValue kp.2 e = some (.raw out))
    (hok : out.ok = false) : keyedStep e st kp = st := by
  cases st with
  | mk b sa sd =>
    simp only [keyedStep, hr, hok, Bool.false_eq_true, if_false, FmtState.mk.injEq,
      and_true, true_and]
    apply String.ext
    unfold strTake strLen
    simp [String.data_append, List.append_assoc, List.take_left]

theorem keyedStep_inv (e : EventData) (kp : String × Producer) (st : FmtState)
    (hg : GoodKeyedAt e kp) (hinv : RendererInv st) : RendererInv (keyedStep e st kp) := by
  obtain ⟨b, sa, sd⟩ := st
  obtain ⟨ms, hbuf, hsa, hss⟩ := hinv
  dsimp only at hbuf hsa hss
  subst hbuf hsa
  unfold GoodKeyedAt at hg
  cases hr : resolveJsonValue kp.2 e with
  | none =>
    rw [keyedStep_none _ _ _ hr]
    exact ⟨ms, rfl, rfl, hss⟩
  | some mc =>
    rw [hr] at hg
    cases mc with
    | serde v =>
      refine ⟨ms ++ [(kp.1, v)], ?_, ?_, ?_⟩
      · simp only [keyedStep, hr]
        rw [serializeMembers_append _ _ (by simp), serializeMembers_single]
        cases hsd : sd with
        | true =>
          have hme : ms.isEmpty = false := by
            have := hss hsd
            cases hm : ms.isEmpty
            · rfl
            · rw [hm] at this; simp at this
          apply String.ext
          simp [hme, String.data_append, List.append_assoc]
        | false =>
          cases hme : ms.isEmpty with
          | true =>
            apply String.ext
            simp [hme, String.data_append, List.append_assoc]
          | false =>
            apply String.ext
            simp [hme, String.data_append, List.append_assoc]
      · simp only [keyedStep, hr]
        simp
      · simp only [keyedStep, hr]
        simp
    | cachedRaw s =>
      obtain ⟨hkey, w, hw⟩ := hg
      subst hw
      refine ⟨ms ++ [(kp.1, w)], ?_, ?_, ?_⟩
      · simp only [keyedStep, hr]
        rw [serializeMembers_append _ _ (by simp), serializeMembers_single]
        cases hme : ms.isEmpty with
        | true =>
          apply String.ext
          simp [hme, serializeString, hkey, String.data_append, List.append_assoc]
        | false =>
          apply String.ext
          simp [hme, serializeString, hkey, String.data_append, List.append_assoc]
      · simp only [keyedStep, hr]
        simp
      · simp only [keyedStep, hr]
        intro h
        simp
    | cachedArr xs =>
      obtain ⟨hkey, hall⟩ := hg
      obtain ⟨ws, hws⟩ := exists_map_of_forall xs hall
      subst hws
      refine ⟨ms ++ [(kp.1, .arr ws)], ?_, ?_, ?_⟩
      · simp only [keyedStep, hr]
        rw [serializeMembers_append _ _ (by simp), serializeMembers_single,
          commaJoin_map_serialize]
        have harr : serialize (.arr ws) = "[" ++ serializeList ws ++ "]" := by
          simp [serialize]
        rw [harr]
        cases hme : ms.isEmpty with
        | true =>
          apply String.ext
          simp [hme, serializeString, hkey, String.data_append, List.append_assoc]
        | false =>
          apply String.ext
          simp [hme, serializeString, hkey, String.data_append, List.append_assoc]
      · simp only [keyedStep, hr]
        simp
      · simp only [keyedStep, hr]
        intro h
        simp
    | raw out =>
      cases hok : out.ok with
      | false =>
        rw [keyedStep_rawErr _ _ _ out hr hok]
        exact ⟨ms, rfl, rfl, hss⟩
      | true =>
        obtain ⟨hkey, w, hw⟩ := hg hok
        refine ⟨ms ++ [(kp.1, w)], ?_, ?_, ?_⟩
        · simp only [keyedStep, hr, hok]
          rw [hw, serializeMembers_append _ _ (by simp), serializeMembers_single]
          cases hme : ms.isEmpty with
          | true =>
            apply String.ext
            simp [hme, serializeString, hkey, String.data_append, List.append_assoc]
          | false =>
            apply String.ext
            simp [hme, serializeString, hkey, String.data_append, List.append_assoc]
        · simp only [keyedStep, hr, hok]
          simp
        · simp only [keyedStep, hr, hok]
          intro h
          simp

theorem serialize_obj_eq (ms : List (String × JValue)) :
    serialize (.obj ms) = "\x7b" ++ serializeMembers ms ++ "\x7d" := by
  simp [serialize]

theorem serialize_obj_data (ms : List (String × JValue)) :
    (serialize (.obj ms)).data = '\x7b' :: ((serializeMembers ms).data ++ ['\x7d']) := by
  rw [serialize_obj_eq, String.data_append, String.data_append]
  rfl

theorem quote_mem_serializeString (k : String) : '"' ∈ (serializeString k).data := by
  show '"' ∈ ("\"" ++ serdeEscape k ++ "\"").data
  rw [String.data_append, String.data_append]
  simp

theorem quote_mem_serializeMembers (m : String × JValue) (ms : List (String × JValue)) :
    '"' ∈ (serializeMembers (m :: ms)).data := by
  obtain ⟨k, v⟩ := m
  cases ms with
  | nil =>
    rw [serializeMembers_single, String.data_append, String.data_append]
    simp [quote_mem_serializeString]
  | cons m₂ tail =>
    rw [serializeMembers_cons2]
    rw [String.data_append]
    simp only [List.mem_append]
    left
    rw [String.data_append, String.data_append, String.data_append]
    simp [quote_mem_serializeString]

theorem containsChar_of_mem (s : String) (c : Char) (h : c ∈ s.data) :
    containsChar s c = true := by
  simp [containsChar, h]

theorem rustTrim_braced (s : String) (t : List Char)
    (h : s.data = '\x7b' :: (t ++ ['\x7d'])) : rustTrim s = s := by
  have h1 : isRustWs '\x7b' = false := by decide
  have h2 : isRustWs '\x7d' = false := by decide
  apply String.ext
  unfold rustTrim
  rw [h]
  simp [List.dropWhile_cons, h1, h2]

theorem stripLeadChar_cons (c : Char) (rest : List Char) (s : String)
    (h : s.data = c :: rest) : stripLeadChar c s = some (String.mk rest) := by
  unfold stripLeadChar
  rw [h]
  simp

theorem stripTailChar_snoc (c : Char) (front : List Char) (s : String)
    (h : s.data = front ++ [c]) : stripTailChar c s = some (String.mk front) := by
  unfold stripTailChar
  rw [h]
  simp

theorem objectContents_serialize (ms : List (String × JValue)) :
    objectContents (serialize (.obj ms)) = some (serializeMembers ms) := by
  unfold objectContents
  rw [rustTrim_braced _ _ (serialize_obj_data ms)]
  rw [stripLeadChar_cons '\x7b' ((serializeMembers ms).data ++ ['\x7d']) _
    (serialize_obj_data ms)]
  simp only [Option.some_bind]
  rw [stripTailChar_snoc '\x7d' (serializeMembers ms).data _ rfl]

theorem serialize_obj_nil_eq : serialize (.obj []) = "\x7b\x7d" := by
  rw [serialize_obj_eq]
  rfl

theorem contains_quote_obj_nil : containsChar (serialize (.obj [])) '"' = false := by
  rw [serialize_obj_nil_eq]
  decide

theorem contains_quote_obj_cons (m : String × JValue) (ms : List (String × JValue)) :
    containsChar (serialize (.obj (m :: ms))) '"' = true := by
  apply containsChar_of_mem
  rw [serialize_obj_data]
  simp [quote_mem_serializeMembers]

theorem flatStep_inv (e : EventData) (p : Producer) (st st' : FmtState)
    (hg : GoodFlatAt e p) (hinv : RendererInv st)
    (hstep : flatStep e st p = some st') : RendererInv st' := by
  obtain ⟨b, sa, sd⟩ := st
  obtain ⟨ms, hbuf, hsa, hss⟩ := hinv
  dsimp only at hbuf hsa hss
  subst hbuf hsa
  unfold GoodFlatAt at hg
  cases hr : resolveJsonValue p e with
  | none =>
    simp only [flatStep, hr, Option.some.injEq] at hstep
    exact hstep ▸ ⟨ms, rfl, rfl, hss⟩
  | some mc =>
    rw [hr] at hg
    cases mc with
    | serde v =>
      obtain ⟨ms', hv⟩ := hg
      subst hv
      cases hme' : ms'.isEmpty with
      | true =>
        have : ms' = [] := by simpa using hme'
        subst this
        simp only [flatStep, hr, List.isEmpty_nil, if_true, Option.some.injEq] at hstep
        exact hstep ▸ ⟨ms, rfl, rfl, hss⟩
      | false =>
        have hne : ms' ≠ [] := by
          intro hc; subst hc; simp at hme'
        simp only [flatStep, hr, hme', Bool.false_eq_true, if_false,
          Option.some.injEq] at hstep
        subst hstep
        refine ⟨ms ++ ms', ?_, ?_, ?_⟩
        · dsimp only
          rw [serializeMembers_append _ _ hne]
          cases hsd : sd with
          | true =>
            have hme : ms.isEmpty = false := by
              have := hss hsd
              cases hm : ms.isEmpty
              · rfl
              · rw [hm] at this; simp at this
            apply String.ext
            simp [hme, String.data_append, List.append_assoc]
          | false =>
            cases hme : ms.isEmpty with
            | true =>
              apply String.ext
              simp [hme, String.data_append, List.append_assoc]
            | false =>
              apply String.ext
              simp [hme, String.data_append, List.append_assoc]
        · simp [hne]
        · simp
    | cachedRaw s =>
      obtain ⟨ms', hs⟩ := hg
      subst hs
      cases ms' with
      | nil =>
        simp only [flatStep, hr, contains_quote_obj_nil, Bool.not_false, if_true,
          Option.some.injEq] at hstep
        exact hstep ▸ ⟨ms, rfl, rfl, hss⟩
      | cons m' tail' =>
        simp only [flatStep, hr, contains_quote_obj_cons, Bool.not_true, Bool.false_eq_true,
          if_false, objectContents_serialize, Option.some.injEq] at hstep
        subst hstep
        refine ⟨ms ++ (m' :: tail'), ?_, ?_, ?_⟩
        · dsimp only
          rw [serializeMembers_append _ _ (by simp)]
          cases hme : ms.isEmpty with
          | true =>
            apply String.ext
            simp [hme, String.data_append, List.append_assoc]
          | false =>
            apply String.ext
            simp [hme, String.data_append, List.append_assoc]
        · simp
        · simp
    | cachedArr xs =>
      simp only [flatStep, hr] at hstep
      exact absurd hstep (by simp)
    | raw out =>
      cases hok : out.ok with
      | false =>
        simp only [flatStep, hr, hok, Bool.false_eq_true, if_false,
          Option.some.injEq] at hstep
        exact hstep ▸ ⟨ms, rfl, rfl, hss⟩
      | true =>
        obtain ⟨ms', hne, hw⟩ := hg hok
        simp only [flatStep, hr, hok, if_true, hw, objectContents_serialize,
          Option.some.injEq] at hstep
        subst hstep
        refine ⟨ms ++ ms', ?_, ?_, ?_⟩
        · dsimp only
          rw [serializeMembers_append _ _ hne]
          cases hme : ms.isEmpty with
          | true =>
            apply String.ext
            simp [hme, String.data_append, List.append_assoc]
          | false =>
            apply String.ext
            simp [hme, String.data_append, List.append_assoc]
        · simp [hne]
        · simp

theorem foldl_keyedStep_inv (e : EventData) (keyed : List (String × Producer)) (st : FmtState)
    (hg : ∀ kp ∈ keyed, GoodKeyedAt e kp) (hinv : RendererInv st) :
    RendererInv (keyed.foldl (keyedStep e) st) := by
  induction keyed generalizing st with
  | nil => simpa using hinv
  | cons kp rest ih =>
    simp only [List.foldl_cons]
    exact ih (keyedStep e st kp) (fun x hx => hg x (by simp [hx]))
      (keyedStep_inv e kp st (hg kp (by simp)) hinv)

theorem flatFold_inv (e : EventData) (flat : List Producer) (st st' : FmtState)
    (hg : ∀ p ∈ flat, GoodFlatAt e p) (hinv : RendererInv st)
    (h : flatFold e st flat = some st') : RendererInv st' := by
  induction flat generalizing st with
  | nil =>
    simp only [flatFold, Option.some.injEq] at h
    exact h ▸ hinv
  | cons p ps ih =>
    rw [flatFold] at h
    cases hs : flatStep e st p with
    | none => rw [hs] at h; cases h
    | some st1 =>
      rw [hs] at h
      exact ih st1 (fun x hx => hg x (by simp [hx]))
        (flatStep_inv e p st st1 (hg p (by simp)) hinv hs) h

theorem initial_inv : RendererInv { buffer := "\x7b", sa := false, saSerde := false } := by
  refine ⟨[], ?_, rfl, by simp⟩
  have h : serializeMembers ([] : List (String × JValue)) = "" := by simp [serializeMembers]
  rw [h, strAppend_empty]

theorem digitChar_ge32 (d : Nat) : 32 ≤ (digitChar d).toNat := by
  unfold digitChar
  repeat' split
  all_goals decide

theorem hexChar_ge32 (d : Nat) : 32 ≤ (hexChar d).toNat := by
  unfold hexChar
  repeat' split
  · exact digitChar_ge32 d
  all_goals decide

theorem natToChars_ge32 (n : Nat) : ∀ c ∈ natToChars n, 32 ≤ c.toNat := by
  induction n using Nat.strong_induction_on with
  | _ n ih =>
    rw [natToChars]
    split
    · intro c hc
      simp at hc
      subst hc
      exact digitChar_ge32 n
    · intro c hc
      rcases List.mem_append.mp hc with h | h
      · exact ih (n / 10) (Nat.div_lt_self (by omega) (by omega)) c h
      · simp at h
        subst h
        exact digitChar_ge32 (n % 10)

theorem numToString_ge32 (i : Int) : ∀ c ∈ (numToString i).data, 32 ≤ c.toNat := by
  unfold numToString
  split
  · intro c hc
    rw [String.data_append] at hc
    rcases List.mem_append.mp hc with h | h
    · have hd : ("-" : String).data = ['-'] := rfl
      rw [hd] at h
      simp at h
      subst h
      decide
    · exact natToChars_ge32 _ c h
  · intro c hc
    exact natToChars_ge32 _ c hc

theorem escapeChar_ge32 (c : Char) : ∀ c' ∈ (escapeChar c).data, 32 ≤ c'.toNat := by
  unfold escapeChar
  repeat' split
  iterate 7 decide
  · intro c' hc'
    rw [String.data_append] at hc'
    rcases List.mem_append.mp hc' with hm | hm
    · have hd : ("\\u00" : String).data = ['\\', 'u', '0', '0'] := rfl
      rw [hd] at hm
      simp at hm
      rcases hm with rfl | rfl | rfl | rfl <;> decide
    · have hd2 : (String.mk [hexChar (c.toNat / 16), hexChar (c.toNat % 16)]).data
          = [hexChar (c.toNat / 16), hexChar (c.toNat % 16)] := rfl
      rw [hd2] at hm
      simp at hm
      rcases hm with rfl | rfl
      · exact hexChar_ge32 _
      · exact hexChar_ge32 _
  · intro c' hc'
    have hd : (String.mk [c]).data = [c] := rfl
    rw [hd] at hc'
    simp at hc'
    subst hc'
    omega

theorem escapeList_ge32 (l : List Char) : ∀ c ∈ (escapeList l).data, 32 ≤ c.toNat := by
  induction l with
  | nil => intro c hc; simp [escapeList] at hc
  | cons x rest ih =>
    intro c hc
    rw [escapeList, String.data_append] at hc
    rcases List.mem_append.mp hc with h | h
    · exact escapeChar_ge32 x c h
    · exact ih c h

theorem serializeString_ge32 (s : String) : ∀ c ∈ (serializeString s).data, 32 ≤ c.toNat := by
  intro c hc
  rw [serializeString, String.data_append, String.data_append] at hc
  rcases List.mem_append.mp hc with h | h
  · rcases List.mem_append.mp h with h2 | h2
    · have hd : ("\"" : String).data = ['"'] := rfl
      rw [hd] at h2
      simp at h2
      subst h2
      decide
    · exact escapeList_ge32 s.data c h2
  · have hd : ("\"" : String).data = ['"'] := rfl
    rw [hd] at h
    simp at h
    subst h
    decide

mutual
theorem serialize_ge32 (v : JValue) : ∀ c ∈ (serialize v).data, 32 ≤ c.toNat := by
  cases v with
  | null =>
    intro c hc
    have h : serialize .null = "null" := by simp [serialize]
    rw [h] at hc
    have hd : ("null" : String).data = ['n', 'u', 'l', 'l'] := rfl
    rw [hd] at hc
    simp at hc
    rcases hc with rfl | rfl | rfl <;> decide
  | bool b =>
    intro c hc
    have h : serialize (.bool b) = if b then "true" else "false" := by simp [serialize]
    rw [h] at hc
    cases b with
    | true =>
      simp at hc
      rcases hc with rfl | rfl | rfl | rfl <;> decide
    | false =>
      simp at hc
      rcases hc with rfl | rfl | rfl | rfl | rfl <;> decide
  | num n =>
    intro c hc
    have h : serialize (.num n) = numToString n := by simp [serialize]
    rw [h] at hc
    exact numToString_ge32 n c hc
  | str s =>
    intro c hc
    have h : serialize (.str s) = serializeString s := by simp [serialize]
    rw [h] at hc
    exact serializeString_ge32 s c hc
  | arr xs =>
    intro c hc
    have h : serialize (.arr xs) = "[" ++ serializeList xs ++ "]" := by simp [serialize]
    rw [h, String.data_append, String.data_append] at hc
    rcases List.mem_append.mp hc with h2 | h2
    · rcases List.mem_append.mp h2 with h3 | h3
      · have hd : ("[" : String).data = ['['] := rfl
        rw [hd] at h3
        simp at h3
        subst h3
        decide
      · exact serializeList_ge32 xs c h3
    · have hd : ("]" : String).data = [']'] := rfl
      rw [hd] at h2
      simp at h2
      subst h2
      decide
  | obj ms =>
    intro c hc
    rw [serialize_obj_data] at hc
    rcases hc with _ | hc
    · decide
    rename_i hc
    rcases List.mem_append.mp hc with h2 | h2
    · exact serializeMembers_ge32 ms c h2
    · simp at h2
      subst h2
      decide

theorem serializeList_ge32 (vs : List JValue) : ∀ c ∈ (serializeList vs).data, 32 ≤ c.toNat := by
  cases vs with
  | nil =>
    intro c hc
    have h : serializeList [] = "" := by simp [serializeList]
    rw [h] at hc
    simp at hc
  | cons v rest =>
    cases rest with
    | nil =>
      intro c hc
      have h : serializeList [v] = serialize v := by simp [serializeList]
      rw [h] at hc
      exact serialize_ge32 v c hc
    | cons v₂ tail =>
      intro c hc
      have h : serializeList (v :: v₂ :: tail)
          = serialize v ++ "," ++ serializeList (v₂ :: tail) := by
        simp [serializeList]
      rw [h, String.data_append, String.data_append] at hc
      rcases List.mem_append.mp hc with h2 | h2
      · rcases List.mem_append.mp h2 with h3 | h3
        · exact serialize_ge32 v c h3
        · have hd : ("," : String).data = [','] := rfl
          rw [hd] at h3
          simp at h3
          subst h3
          decide
      · exact serializeList_ge32 (v₂ :: tail) c h2

theorem serializeMembers_ge32 (ms : List (String × JValue)) :
    ∀ c ∈ (serializeMembers ms).data, 32 ≤ c.toNat := by
  cases ms with
  | nil =>
    intro c hc
    have h : serializeMembers [] = "" := by simp [serializeMembers]
    rw [h] at hc
    simp at hc
  | cons m rest =>
    obtain ⟨k, v⟩ := m
    cases rest with
    | nil =>
      intro c hc
      rw [serializeMembers_single, String.data_append, String.data_append] at hc
      rcases List.mem_append.mp hc with h2 | h2
      · rcases List.mem_append.mp h2 with h3 | h3
        · exact serializeString_ge32 k c h3
        · have hd : (":" : String).data = [':'] := rfl
          rw [hd] at h3
          simp at h3
          subst h3
          decide
      · exact serialize_ge32 v c h2
    | cons m₂ tail =>
      intro c hc
      rw [serializeMembers_cons2, String.data_append, String.data_append,
        String.data_append, String.data_append] at hc
      rcases List.mem_append.mp hc with h2 | h2
      · rcases List.mem_append.mp h2 with h3 | h3
        · rcases List.mem_append.mp h3 with h4 | h4
          · rcases List.mem_append.mp h4 with h5 | h5
            · exact serializeString_ge32 k c h5
            · have hd : (":" : String).data = [':'] := rfl
              rw [hd] at h5
              simp at h5
              subst h5
              decide
          · exact serialize_ge32 v c h4
        · have hd : ("," : String).data = [','] := rfl
          rw [hd] at h3
          simp at h3
          subst h3
          decide
      · exact serializeMembers_ge32 (m₂ :: tail) c h2
end

/-- C1 (amended): for every configured schema and every event, provided
every fragment spliced verbatim into the buffer (cached fragments, raw
producer output, and statically keyed splices) is itself serde-serialized
JSON of the required shape and the statically spliced keys need no
escaping, the line handed to the sink is the serde serialization of a
JSON object followed by the trailing newline, hence parses as valid
JSON. -/
theorem c1_every_line_is_serialized_json
    (keyed : List (String × Producer)) (flat : List Producer) (e : EventData) (line : String)
    (hk : ∀ kp ∈ keyed, GoodKeyedAt e kp) (hf : ∀ p ∈ flat, GoodFlatAt e p)
    (hline : formatEvent keyed flat e = some line) :
    ∃ ms : List (String × JValue), line = serialize (JValue.obj ms) ++ "\n" := by
  unfold formatEvent at hline
  have hinv1 := foldl_keyedStep_inv e keyed _ hk initial_inv
  cases hff : flatFold e
      (keyed.foldl (keyedStep e) { buffer := "\x7b", sa := false, saSerde := false }) flat with
  | none => simp [hff] at hline
  | some st2 =>
    simp only [hff, Option.some.injEq] at hline
    obtain ⟨ms, hbuf, _, _⟩ := flatFold_inv e flat _ st2 hf hinv1 hff
    refine ⟨ms, ?_⟩
    rw [← hline, hbuf, serialize_obj_eq]

/-- C1 witness: the amended validity theorem applied to a concrete
one-entry schema. -/
theorem c1_witness :
    ∃ ms : List (String × JValue), "\x7b\"a\":1\x7d\n" = serialize (JValue.obj ms) ++ "\n" :=
  c1_every_line_is_serialized_json [("a", Producer.serde (JValue.num 1))] []
    { fieldMap := [], target := "t", level := "INFO", scope := [] } "\x7b\"a\":1\x7d\n"
    (by
      intro kp hkp
      simp at hkp
      subst hkp
      simp [GoodKeyedAt, resolveJsonValue])
    (by intro p hp; simp at hp)
    (by
      simp [formatEvent, keyedStep, resolveJsonValue, flatFold, serialize, serializeString,
        serdeEscape, escapeList, escapeChar, numToString, natToChars, digitChar])

/-- C1 counterexample: with the target producer configured, an event
whose target contains a control character produces a line that is not the
serialization of any JSON value followed by a newline (serialized JSON
never contains a raw control character, so the line cannot be re-parsed
as JSON). -/
theorem c1_counterexample :
    formatEvent [("target", withTargetProducer)] []
        { fieldMap := [], target := "a\nb", level := "INFO", scope := [] }
      = some "\x7b\"target\":\"a\nb\"\x7d\n"
    ∧ ¬ ∃ v : JValue, "\x7b\"target\":\"a\nb\"\x7d\n" = serialize v ++ "\n" := by
  constructor
  · rfl
  · rintro ⟨v, hv⟩
    have hdata := congrArg String.data hv
    rw [String.data_append] at hdata
    have hlit : ("\x7b\"target\":\"a\nb\"\x7d\n" : String).data
        = ['\x7b', '"', 't', 'a', 'r', 'g', 'e', 't', '"', ':', '"', 'a', '\n', 'b', '"',
           '\x7d'] ++ ['\n'] := rfl
    have hnl : ("\n" : String).data = ['\n'] := rfl
    rw [hlit, hnl] at hdata
    have heq : (serialize v).data
        = ['\x7b', '"', 't', 'a', 'r', 'g', 'e', 't', '"', ':', '"', 'a', '\n', 'b', '"',
           '\x7d'] :=
      (List.append_cancel_right hdata).symm
    have h32 := serialize_ge32 v '\n' (by rw [heq]; decide)
    exact absurd h32 (by decide)

/-- C3: a raw keyed producer that returns an error mid-write leaves the
output exactly as if its schema entry were absent: the buffer is
truncated back to the saved position (no partial fragment, no comma, no
key remains), the remaining producers still run, and the event is not
aborted. -/
theorem c3_raw_error_rolls_back_and_continues
    (e : EventData) (keyed₁ keyed₂ : List (String × Producer)) (k : String)
    (f : EventData → RawOut) (flat : List Producer)
    (herr : (f e).ok = false) :
    formatEvent (keyed₁ ++ (k, Producer.dynRawFromEvent f) :: keyed₂) flat e
      = formatEvent (keyed₁ ++ keyed₂) flat e := by
  unfold formatEvent
  have hstep : ∀ st, keyedStep e st (k, Producer.dynRawFromEvent f) = st := by
    intro st
    exact keyedStep_rawErr e st (k, Producer.dynRawFromEvent f) (f e) (by rfl) herr
  simp only [List.foldl_append, List.foldl_cons, hstep]

/-- C3 witness: the rollback theorem applied to a failing raw producer
between two static fields. -/
theorem c3_witness :
    formatEvent [("a", Producer.serde (JValue.num 1)),
        ("m", Producer.dynRawFromEvent (fun _ => { written := "par", ok := false })),
        ("z", Producer.serde (JValue.bool true))] []
        { fieldMap := [], target := "t", level := "INFO", scope := [] }
      = formatEvent [("a", Producer.serde (JValue.num 1)),
        ("z", Producer.serde (JValue.bool true))] []
        { fieldMap := [], target := "t", level := "INFO", scope := [] } :=
  c3_raw_error_rolls_back_and_continues
    { fieldMap := [], target := "t", level := "INFO", scope := [] }
    [("a", Producer.serde (JValue.num 1))] [("z", Producer.serde (JValue.bool true))]
    "m" (fun _ => { written := "par", ok := false }) [] rfl

/-- C6: a keyed producer that resolves to no value leaves the output
exactly as if its schema entry were absent (the key never appears, in
particular never with a null value); moreover span-scoped producers
resolve to no value when the event has no enclosing span, and event
producers resolve to no value when their closure returns none. -/
theorem c6_none_means_key_absent
    (e : EventData) (keyed₁ keyed₂ : List (String × Producer)) (k : String) (p : Producer)
    (flat : List Producer) (hnone : resolveJsonValue p e = none) :
    (formatEvent (keyed₁ ++ (k, p) :: keyed₂) flat e = formatEvent (keyed₁ ++ keyed₂) flat e)
    ∧ (∀ f : List SpanData → Option JValue, e.scope = [] →
        resolveJsonValue (Producer.dynFromSpan f) e = none)
    ∧ (∀ f : List SpanData → Option Cached, e.scope = [] →
        resolveJsonValue (Producer.dynCachedFromSpan f) e = none)
    ∧ (∀ f : EventData → Option JValue, f e = none →
        resolveJsonValue (Producer.dynFromEvent f) e = none) := by
  refine ⟨?_, ?_, ?_, ?_⟩
  · unfold formatEvent
    have hstep : ∀ st, keyedStep e st (k, p) = st := fun st => keyedStep_none e st (k, p) hnone
    simp only [List.foldl_append, List.foldl_cons, hstep]
  · intro f hsc
    simp [resolveJsonValue, hsc]
  · intro f hsc
    simp [resolveJsonValue, hsc]
  · intro f hf
    simp [resolveJsonValue, hf]

/-- C6 witness: a span-scoped producer on an event with no enclosing
span is omitted entirely. -/
theorem c6_witness :
    formatEvent [("a", Producer.serde (JValue.num 1)),
        ("s", Producer.dynFromSpan (fun _ => some JValue.null))] []
        { fieldMap := [], target := "t", level := "INFO", scope := [] }
      = formatEvent [("a", Producer.serde (JValue.num 1))] []
        { fieldMap := [], target := "t", level := "INFO", scope := [] } :=
  (c6_none_means_key_absent
    { fieldMap := [], target := "t", level := "INFO", scope := [] }
    [("a", Producer.serde (JValue.num 1))] [] "s"
    (Producer.dynFromSpan (fun _ => some JValue.null)) [] (by rfl)).1

/-- C7: a flatten producer that resolves to an empty JSON object, as a
serde value or as a cached pre-serialized fragment, contributes nothing
to the output: rendering is exactly as if its schema entry were absent,
so no stray comma appears and the remaining members still form the same
valid JSON object. -/
theorem c7_flatten_empty_object_contributes_nothing
    (e : EventData) (keyed : List (String × Producer)) (flat₁ flat₂ : List Producer)
    (p : Producer)
    (hres : resolveJsonValue p e = some (.serde (JValue.obj []))
          ∨ resolveJsonValue p e = some (.cachedRaw (serialize (JValue.obj [])))) :
    formatEvent keyed (flat₁ ++ p :: flat₂) e = formatEvent keyed (flat₁ ++ flat₂) e := by
  have hstep : ∀ st, flatStep e st p = some st := by
    intro st
    rcases hres with h | h
    · simp [flatStep, h]
    · simp [flatStep, h, contains_quote_obj_nil]
  unfold formatEvent
  have hfold : ∀ st, flatFold e st (flat₁ ++ p :: flat₂) = flatFold e st (flat₁ ++ flat₂) := by
    intro st
    induction flat₁ generalizing st with
    | nil =>
      show flatFold e st (p :: flat₂) = flatFold e st flat₂
      rw [flatFold, hstep st]
    | cons q rest ih =>
      rw [List.cons_append, flatFold, List.cons_append, flatFold]
      cases hq : flatStep e st q with
      | none => rfl
      | some st1 => exact ih st1
  simp only [hfold]

/-- C7 witness: flattening an empty serde object between two flatten
entries changes nothing. -/
theorem c7_witness :
    formatEvent [("a", Producer.serde (JValue.num 1))]
        [Producer.serde (JValue.obj []),
          Producer.serde (JValue.obj [("b", JValue.num 2)])]
        { fieldMap := [], target := "t", level := "INFO", scope := [] }
      = formatEvent [("a", Producer.serde (JValue.num 1))]
        [Producer.serde (JValue.obj [("b", JValue.num 2)])]
        { fieldMap := [], target := "t", level := "INFO", scope := [] } :=
  c7_flatten_empty_object_contributes_nothing
    { fieldMap := [], target := "t", level := "INFO", scope := [] }
    [("a", Producer.serde (JValue.num 1))] []
    [Producer.serde (JValue.obj [("b", JValue.num 2)])]
    (Producer.serde (JValue.obj [])) (Or.inl rfl)

/-- C5: with the span-list producer configured at a key, an event whose
ancestor chain (root first, nearest enclosing span last) consists of
spans carrying field stores renders that key as a JSON array holding each
span's cached serialization in the same root-to-leaf order. -/
theorem c5_span_list_is_root_to_leaf_array
    (k : String) (jfs : List JsonFields) (fm : List (String × JValue)) (tg lv : String)
    (hne : jfs ≠ []) :
    formatEvent [(k, spanListProducer)] []
        { fieldMap := fm, target := tg, level := lv,
          scope := jfs.map (fun jf => SpanData.mk (some jf)) }
      = some ("\x7b" ++ "\"" ++ k ++ "\"" ++ ":" ++ "["
          ++ commaJoin (jfs.map (fun jf => jf.serialized)) ++ "]" ++ "\x7d" ++ "\n") := by
  cases jfs with
  | nil => exact absurd rfl hne
  | cons jf rest =>
    unfold formatEvent
    have hres : resolveJsonValue spanListProducer
        { fieldMap := fm, target := tg, level := lv,
          scope := (jf :: rest).map (fun jf => SpanData.mk (some jf)) }
        = some (.cachedArr ((jf :: rest).map (fun jf => jf.serialized))) := by
      have hcomp : ∀ l : List JsonFields,
          List.filterMap (fun s : SpanData => Option.map (fun jf => jf.serialized) s.ext)
            (l.map (fun jf => SpanData.mk (some jf)))
          = l.map (fun jf => jf.serialized) := by
        intro l
        induction l with
        | nil => simp
        | cons a t ih => simp [List.filterMap_cons, ih]
      simp [resolveJsonValue, spanListProducer, hcomp]
    simp only [List.foldl_cons, List.foldl_nil, keyedStep, hres, flatFold]
    apply congrArg
    apply String.ext
    simp [String.data_append, List.append_assoc]

/-- C5 witness: three nested spans render root first, leaf last. -/
theorem c5_witness :
    formatEvent [("spans", spanListProducer)] []
        { fieldMap := [], target := "t", level := "INFO",
          scope := ([⟨⟨[("name", JValue.str "A"), ("x", JValue.num 1)], false⟩,
                       "\x7b\"name\":\"A\",\"x\":1\x7d"⟩,
                     ⟨⟨[("name", JValue.str "B"), ("y", JValue.num 2)], false⟩,
                       "\x7b\"name\":\"B\",\"y\":2\x7d"⟩,
                     ⟨⟨[("name", JValue.str "C"), ("z", JValue.num 3)], false⟩,
                       "\x7b\"name\":\"C\",\"z\":3\x7d"⟩] : List JsonFields).map
            (fun jf => SpanData.mk (some jf)) }
      = some ("\x7b\"spans\":[\x7b\"name\":\"A\",\"x\":1\x7d,\x7b\"name\":\"B\",\"y\":2\x7d,"
          ++ "\x7b\"name\":\"C\",\"z\":3\x7d]\x7d\n") :=
  (c5_span_list_is_root_to_leaf_array "spans"
    [⟨⟨[("name", JValue.str "A"), ("x", JValue.num 1)], false⟩,
       "\x7b\"name\":\"A\",\"x\":1\x7d"⟩,
     ⟨⟨[("name", JValue.str "B"), ("y", JValue.num 2)], false⟩,
       "\x7b\"name\":\"B\",\"y\":2\x7d"⟩,
     ⟨⟨[("name", JValue.str "C"), ("z", JValue.num 3)], false⟩,
       "\x7b\"name\":\"C\",\"z\":3\x7d"⟩] [] "t" "INFO" (by simp)).trans (by decide)

theorem flatStep_some_of_none (e : EventData) (st : FmtState) (p : Producer)
    (h : resolveJsonValue p e = none) : flatStep e st p = some st := by
  simp [flatStep, h]

theorem flatStep_some_of_serdeObj (e : EventData) (st : FmtState) (p : Producer)
    (ms : List (String × JValue))
    (h : resolveJsonValue p e = some (.serde (JValue.obj ms))) :
    ∃ st', flatStep e st p = some st' := by
  simp only [flatStep, h]
  split
  · exact ⟨st, rfl⟩
  · exact ⟨_, rfl⟩

theorem flatStep_some_of_cachedRaw (e : EventData) (st : FmtState) (p : Producer)
    (s : String) (h : resolveJsonValue p e = some (.cachedRaw s)) :
    ∃ st', flatStep e st p = some st' := by
  simp only [flatStep, h]
  split
  · exact ⟨st, rfl⟩
  · split
    · exact ⟨st, rfl⟩
    · exact ⟨_, rfl⟩

theorem resolve_currentSpan_shape (e : EventData) :
    resolveJsonValue currentSpanProducer e = none
    ∨ ∃ s, resolveJsonValue currentSpanProducer e = some (.cachedRaw s) := by
  cases hsc : e.scope with
  | nil =>
    left
    simp [resolveJsonValue, currentSpanProducer, hsc]
  | cons a rest =>
    cases hl : (a :: rest).getLast? with
    | none => simp at hl
    | some sp =>
      cases hx : sp.ext with
      | none =>
        left
        simp [resolveJsonValue, currentSpanProducer, hsc, hl, hx]
      | some jf =>
        right
        exact ⟨jf.serialized, by simp [resolveJsonValue, currentSpanProducer, hsc, hl, hx]⟩

theorem flatStep_api_some (e : EventData) (st : FmtState) (p : Producer)
    (hapi : FlatAPI p) : ∃ st', flatStep e st p = some st' := by
  cases hapi with
  | flatEvent =>
    exact flatStep_some_of_serdeObj e st _ (toSortedObj e.fieldMap)
      (by simp [resolveJsonValue, eventFieldMapProducer])
  | flatCurrentSpan =>
    rcases resolve_currentSpan_shape e with h | ⟨s, h⟩
    · exact ⟨st, flatStep_some_of_none e st _ h⟩
    · exact flatStep_some_of_cachedRaw e st _ s h
  | flatSpanList =>
    cases hsc : e.scope with
    | nil =>
      exact ⟨st, flatStep_some_of_none e st _
        (by simp [resolveJsonValue, flattenedSpanListProducer, hsc])⟩
    | cons a rest =>
      exact flatStep_some_of_serdeObj e st _ (mergedSpanFields (a :: rest))
        (by simp [resolveJsonValue, flattenedSpanListProducer, hsc])
  | multiDynamic g =>
    exact flatStep_some_of_serdeObj e st _ (toSortedObj (g e))
      (by simp [resolveJsonValue, multipleDynamicProducer])

theorem flatFold_api_some (e : EventData) (flat : List Producer)
    (hapi : ∀ p ∈ flat, FlatAPI p) :
    ∀ st : FmtState, ∃ st', flatFold e st flat = some st' := by
  induction flat with
  | nil => exact fun st => ⟨st, rfl⟩
  | cons p ps ih =>
    intro st
    obtain ⟨st1, h1⟩ := flatStep_api_some e st p (hapi p (by simp))
    obtain ⟨st2, h2⟩ := ih (fun q hq => hapi q (by simp [hq])) st1
    exact ⟨st2, by rw [flatFold, h1]; exact h2⟩

/-- C10: when every flattened producer comes from the public schema API
(with_flattened_event, with_top_level_flattened_current_span,
with_top_level_flattened_span_list, add_multiple_dynamic_fields), no
flatten entry ever resolves to a cached array fragment and rendering
never reaches a panicking branch: format_event always yields a line. -/
theorem c10_public_flatten_never_panics
    (keyed : List (String × Producer)) (flat : List Producer) (e : EventData)
    (hapi : ∀ p ∈ flat, FlatAPI p) :
    (formatEvent keyed flat e).isSome = true := by
  unfold formatEvent
  obtain ⟨st2, h2⟩ := flatFold_api_some e flat hapi
    (keyed.foldl (keyedStep e) { buffer := "\x7b", sa := false, saSerde := false })
  simp [h2]

/-- C10 witness: all four public flatten producers at once on a concrete
event inside a span. -/
theorem c10_witness :
    (formatEvent [("a", Producer.serde (JValue.num 1))]
        [eventFieldMapProducer, currentSpanProducer, flattenedSpanListProducer,
          multipleDynamicProducer (fun _ => [("extra", JValue.num 7)])]
        { fieldMap := [("message", JValue.str "hi")], target := "t", level := "INFO",
          scope := [SpanData.mk (some ⟨⟨[("name", JValue.str "A")], false⟩,
            "\x7b\"name\":\"A\"\x7d"⟩)] }).isSome = true :=
  c10_public_flatten_never_panics _ _ _ (by
    intro p hp
    simp at hp
    rcases hp with rfl | rfl | rfl | rfl
    · exact FlatAPI.flatEvent
    · exact FlatAPI.flatCurrentSpan
    · exact FlatAPI.flatSpanList
    · exact FlatAPI.multiDynamic _)

theorem lookupKey_eq_none_of_not_mem {κ α : Type} [DecidableEq κ]
    (m : List (κ × α)) (k : κ) (h : k ∉ m.map Prod.fst) : lookupKey k m = none := by
  induction m with
  | nil => rfl
  | cons kv rest ih =>
    obtain ⟨k', v'⟩ := kv
    simp only [List.map_cons, List.mem_cons, not_or] at h
    rw [lookupKey, if_neg h.1]
    exact ih h.2

theorem lookupKey_mapRemove_self {κ α : Type} [DecidableEq κ]
    (m : List (κ × α)) (k : κ) (h : (m.map Prod.fst).Nodup) :
    lookupKey k (mapRemove k m) = none := by
  induction m with
  | nil => rfl
  | cons kv rest ih =>
    obtain ⟨k', v'⟩ := kv
    simp only [List.map_cons, List.nodup_cons] at h
    by_cases hk : k = k'
    · subst hk
      rw [mapRemove, if_pos rfl]
      exact lookupKey_eq_none_of_not_mem rest k h.1
    · rw [mapRemove, if_neg hk, lookupKey, if_neg hk]
      exact ih h.2

theorem mapRemove_of_lookup_none {κ α : Type} [DecidableEq κ]
    (m : List (κ × α)) (k : κ) (h : lookupKey k m = none) : mapRemove k m = m := by
  induction m with
  | nil => rfl
  | cons kv rest ih =>
    obtain ⟨k', v'⟩ := kv
    rw [lookupKey] at h
    by_cases hk : k = k'
    · rw [if_pos hk] at h
      cases h
    · rw [if_neg hk] at h
      rw [mapRemove, if_neg hk, ih h]

/-- C9: remove_field deletes the keyed producer at a static key and
remove_flattened_field deletes the flattened producer at a flat key;
either operation is a no-op (the schema map is unchanged) when no
producer exists at that key. -/
theorem c9_remove_deletes_or_noop
    (keyed : List (String × Producer)) (flat : List (FlatSchemaKey × Producer))
    (k : String) (fk : FlatSchemaKey)
    (hkd : (keyed.map Prod.fst).Nodup) (hfd : (flat.map Prod.fst).Nodup) :
    lookupKey k (removeField keyed k) = none
    ∧ lookupKey fk (removeFlattenedField flat fk) = none
    ∧ (lookupKey k keyed = none → removeField keyed k = keyed)
    ∧ (lookupKey fk flat = none → removeFlattenedField flat fk = flat) := by
  refine ⟨?_, ?_, ?_, ?_⟩
  · exact lookupKey_mapRemove_self keyed k hkd
  · exact lookupKey_mapRemove_self flat fk hfd
  · exact fun h => mapRemove_of_lookup_none keyed k h
  · exact fun h => mapRemove_of_lookup_none flat fk h

/-- C9 witness: removal on a concrete two-entry schema, both for a
present key and for an absent key. -/
theorem c9_witness :
    lookupKey "a" (removeField [("a", Producer.serde (JValue.num 1)),
        ("b", Producer.serde (JValue.num 2))] "a") = none
    ∧ lookupKey FlatSchemaKey.flattenedEvent
        (removeFlattenedField [(FlatSchemaKey.flattenedEvent, eventFieldMapProducer)]
          FlatSchemaKey.flattenedEvent) = none
    ∧ (lookupKey "zz" [("a", Producer.serde (JValue.num 1)),
        ("b", Producer.serde (JValue.num 2))] = none →
        removeField [("a", Producer.serde (JValue.num 1)),
          ("b", Producer.serde (JValue.num 2))] "zz"
          = [("a", Producer.serde (JValue.num 1)), ("b", Producer.serde (JValue.num 2))])
    ∧ (lookupKey (FlatSchemaKey.uuid 3)
        [(FlatSchemaKey.flattenedEvent, eventFieldMapProducer)] = none →
        removeFlattenedField [(FlatSchemaKey.flattenedEvent, eventFieldMapProducer)]
          (FlatSchemaKey.uuid 3)
          = [(FlatSchemaKey.flattenedEvent, eventFieldMapProducer)]) := by
  have h1 := c9_remove_deletes_or_noop
    [("a", Producer.serde (JValue.num 1)), ("b", Producer.serde (JValue.num 2))]
    [(FlatSchemaKey.flattenedEvent, eventFieldMapProducer)] "a" FlatSchemaKey.flattenedEvent
    (by simp) (by simp)
  have h2 := c9_remove_deletes_or_noop
    [("a", Producer.serde (JValue.num 1)), ("b", Producer.serde (JValue.num 2))]
    [(FlatSchemaKey.flattenedEvent, eventFieldMapProducer)] "zz" (FlatSchemaKey.uuid 3)
    (by simp) (by simp)
  exact ⟨h1.1, h1.2.1, h2.2.2.1, h2.2.2.2⟩

theorem char_eq_of_toNat {a b : Char} (h : a.toNat = b.toNat) : a = b :=
  Char.eq_of_val_eq (UInt32.eq_of_toBitVec_eq (BitVec.eq_of_toNat_eq h))

theorem keyLtChars_irrefl (l : List Char) : keyLtChars l l = false := by
  induction l with
  | nil => rfl
  | cons x xs ih => simp [keyLtChars, ih]

theorem keyLtChars_asymm (a b : List Char) (h : keyLtChars a b = true) :
    keyLtChars b a = false := by
  induction a generalizing b with
  | nil =>
    cases b with
    | nil => simp [keyLtChars] at h
    | cons y ys => simp [keyLtChars]
  | cons x xs ih =>
    cases b with
    | nil => simp [keyLtChars] at h
    | cons y ys =>
      rcases Nat.lt_trichotomy x.toNat y.toNat with ht | ht | ht
      · simp [keyLtChars, ht, Nat.lt_asymm ht]
      · have hxy : x = y := char_eq_of_toNat ht
        subst hxy
        simp [keyLtChars, Nat.lt_irrefl] at h ⊢
        exact ih ys h
      · simp [keyLtChars, ht, Nat.lt_asymm ht] at h

theorem keyLt_asymm (a b : String) (h : keyLt a b = true) : keyLt b a = false :=
  keyLtChars_asymm a.data b.data h

theorem keyLt_irrefl (a : String) : keyLt a a = false := keyLtChars_irrefl a.data

theorem lookupKey_mem {κ α : Type} [DecidableEq κ] (m : List (κ × α)) (k : κ) (v : α)
    (h : lookupKey k m = some v) : k ∈ m.map Prod.fst := by
  induction m with
  | nil => cases h
  | cons kv rest ih =>
    obtain ⟨k', v'⟩ := kv
    rw [lookupKey] at h
    by_cases hk : k = k'
    · simp [hk]
    · rw [if_neg hk] at h
      simp [ih h]

theorem insertSorted_lookup_self (k : String) (v : JValue) (m : List (String × JValue)) :
    lookupKey k (insertSorted k v m) = some v := by
  induction m with
  | nil => simp [insertSorted, lookupKey]
  | cons kv rest ih =>
    obtain ⟨k', v'⟩ := kv
    by_cases h1 : keyLt k k' = true
    · simp [insertSorted, h1, lookupKey]
    · by_cases h2 : k = k'
      · subst h2
        simp [insertSorted, keyLt_irrefl, lookupKey]
      · rw [insertSorted, if_neg (by simp [h1]), if_neg h2, lookupKey, if_neg h2]
        exact ih

theorem insertSorted_self_of_lookup (m : List (String × JValue)) (k : String) (v : JValue)
    (hs : SortedKeys m) (h : lookupKey k m = some v) : insertSorted k v m = m := by
  induction m with
  | nil => cases h
  | cons kv rest ih =>
    obtain ⟨k', v'⟩ := kv
    rw [lookupKey] at h
    obtain ⟨hhead, htail⟩ := List.pairwise_cons.mp hs
    by_cases h2 : k = k'
    · subst h2
      rw [if_pos rfl] at h
      obtain rfl : v' = v := by injection h
      rw [insertSorted, if_neg (by simp [keyLt_irrefl]), if_pos rfl]
    · rw [if_neg h2] at h
      have hmem : k ∈ rest.map Prod.fst := lookupKey_mem rest k v h
      obtain ⟨p, hp, hpk⟩ := List.mem_map.mp hmem
      have hlt : keyLt k' k = true := hpk ▸ hhead p hp
      have hnlt : keyLt k k' = false := keyLt_asymm k' k hlt
      rw [insertSorted, if_neg (by simp [hnlt]), if_neg h2, ih htail h]

theorem visitorRecord_fields (inner : JsonFieldsInner) (k : String) (v : JValue) :
    (visitorRecord inner k v).fields = insertSorted k v inner.fields := by
  rw [visitorRecord]
  cases lookupKey k inner.fields <;> rfl

/-- C2: with a key-sorted field store whose cache is consistent,
recording the value a field already holds recomputes a cached
serialization that is equal in content to the old one; recording a
different value updates the field map and installs the serialization of
the updated map as the cache, which is exactly what the current-span
producer hands to the very next render that reads this span. -/
theorem c2_record_same_value_keeps_cache
    (store : JsonFields) (k : String) (v v' : JValue)
    (hs : SortedKeys store.inner.fields)
    (hc : store.serialized = serializeFields store.inner) :
    (lookupKey k store.inner.fields = some v →
      (onRecord store [(k, v)]).serialized = store.serialized)
    ∧ lookupKey k (onRecord store [(k, v')]).inner.fields = some v'
    ∧ (onRecord store [(k, v')]).serialized
        = serialize (JValue.obj (insertSorted k v' store.inner.fields))
    ∧ (∀ e : EventData,
        e.scope = [SpanData.mk (some (onRecord store [(k, v')]))] →
        resolveJsonValue currentSpanProducer e
          = some (.cachedRaw (serialize (JValue.obj (insertSorted k v' store.inner.fields))))) := by
  have hfields : ∀ w : JValue,
      (onRecord store [(k, w)]).inner.fields = insertSorted k w store.inner.fields := by
    intro w
    simp [onRecord, visitorRecord_fields]
  have hser : ∀ w : JValue,
      (onRecord store [(k, w)]).serialized
        = serialize (JValue.obj (insertSorted k w store.inner.fields)) := by
    intro w
    simp [onRecord, serializeFields, visitorRecord_fields]
  refine ⟨?_, ?_, hser v', ?_⟩
  · intro h
    rw [hser v, insertSorted_self_of_lookup store.inner.fields k v hs h, hc, serializeFields]
  · rw [hfields v']
    exact insertSorted_lookup_self k v' store.inner.fields
  · intro e hsc
    simp [resolveJsonValue, currentSpanProducer, hsc, hser v']

/-- C2 witness: the cache theorem applied to a concrete store holding
answer 42, re-recording 42 and then recording 99. -/
theorem c2_witness :
    (lookupKey "answer"
        [("answer", JValue.num 42), ("name", JValue.str "s")] = some (JValue.num 42) →
      (onRecord ⟨⟨[("answer", JValue.num 42), ("name", JValue.str "s")], false⟩,
          "\x7b\"answer\":42,\"name\":\"s\"\x7d"⟩
        [("answer", JValue.num 42)]).serialized = "\x7b\"answer\":42,\"name\":\"s\"\x7d")
    ∧ lookupKey "answer"
        (onRecord ⟨⟨[("answer", JValue.num 42), ("name", JValue.str "s")], false⟩,
            "\x7b\"answer\":42,\"name\":\"s\"\x7d"⟩
          [("answer", JValue.num 99)]).inner.fields = some (JValue.num 99)
    ∧ (onRecord ⟨⟨[("answer", JValue.num 42), ("name", JValue.str "s")], false⟩,
          "\x7b\"answer\":42,\"name\":\"s\"\x7d"⟩
        [("answer", JValue.num 99)]).serialized
        = serialize (JValue.obj (insertSorted "answer" (JValue.num 99)
            [("answer", JValue.num 42), ("name", JValue.str "s")]))
    ∧ (∀ e : EventData,
        e.scope = [SpanData.mk (some (onRecord
          ⟨⟨[("answer", JValue.num 42), ("name", JValue.str "s")], false⟩,
            "\x7b\"answer\":42,\"name\":\"s\"\x7d"⟩ [("answer", JValue.num 99)]))] →
        resolveJsonValue currentSpanProducer e
          = some (.cachedRaw (serialize (JValue.obj (insertSorted "answer" (JValue.num 99)
              [("answer", JValue.num 42), ("name", JValue.str "s")]))))) :=
  c2_record_same_value_keeps_cache
    ⟨⟨[("answer", JValue.num 42), ("name", JValue.str "s")], false⟩,
      "\x7b\"answer\":42,\"name\":\"s\"\x7d"⟩
    "answer" (JValue.num 42) (JValue.num 99)
    (by unfold SortedKeys; decide)
    (by
      simp [serializeFields, serialize, serializeMembers, serializeString, serdeEscape,
        escapeList, escapeChar, numToString, natToChars, digitChar])

/-- C4: evaluation at the failing input. The set method of the field
store in src/fields.rs does protect the reserved name key (first
conjunct), but the canonical record path of src/layer/mod.rs goes
through the visitor of src/visitor.rs, which has no such guard: a span
created with name s whose record carries a field literally named name
ends up with that recorded value as its stored name and in its cached
serialization (remaining conjuncts), where the claim requires the name
set at creation to be immutable. -/
theorem c4_record_overwrites_name :
    (ArcSwapFields.set ⟨"s", [("answer", none)]⟩ "name" "evil"
        = (⟨"s", [("answer", none)]⟩ : ArcSwapFields))
    ∧ (onNewSpan [] "s").serialized = "\x7b\"name\":\"s\"\x7d"
    ∧ (onRecord (onNewSpan [] "s") [("name", JValue.str "evil")]).serialized
        = "\x7b\"name\":\"evil\"\x7d"
    ∧ lookupKey "name"
        (onRecord (onNewSpan [] "s") [("name", JValue.str "evil")]).inner.fields
        = some (JValue.str "evil") := by
  refine ⟨rfl, ?_, ?_, ?_⟩
  · simp [onNewSpan, serializeFields, insertSorted, serialize, serializeMembers,
      serializeString, serdeEscape, escapeList, escapeChar]
  · simp [onRecord, onNewSpan, visitorRecord, lookupKey, insertSorted, serializeFields,
      serialize, serializeMembers, serializeString, serdeEscape, escapeList, escapeChar]
  · rfl

/-- C8: evaluation at the failing input. write_escaped escapes quotes
and backslashes but passes the control character U+000A through raw,
whereas the serde path (serializeString, used for recorded string
fields) escapes it; so the output of write_escaped differs from standard
JSON string escaping and contains a raw control character. -/
theorem c8_write_escaped_leaves_control_chars :
    write_escaped "a\nb" = "\"a\nb\""
    ∧ '\n' ∈ (write_escaped "a\nb").data
    ∧ serializeString "a\nb" = "\"a\\nb\""
    ∧ write_escaped "a\nb" ≠ serializeString "a\nb"
    ∧ write_escaped "a\"b\\c" = "\"a\\\"b\\\\c\"" := by
  refine ⟨rfl, by decide, by decide, by decide, rfl⟩
